import Mathlib

/-!
# Verification of the myMediaCrawler core against its specification

Shallow embedding of the repository's core components:

* `cache/local_cache.py` — `ExpiringLocalCache` (a TTL key-value store
  backed by a Python `dict`, with lazy eviction on `get` and a periodic
  sweep `_clear`);
* `ai_agent/llm_agent.py` — `LLMAgent.judge_relevance` and its
  deterministic fallback `_simple_relevance_check`;
* `data_postprocessor.py` — the load-stage deduplication
  (`_load_weibo_data` / `_load_bilibili_data`) and the persist stage
  (`save_relevant_data`).

Modelling conventions:

* A Python `dict` is an association list with pairwise-distinct keys kept
  in insertion order (CPython guarantees insertion-order iteration;
  updating an existing key keeps its position, a new key is appended,
  and deleting a key leaves the order of the others unchanged).
* `time.time()` is an explicit `ℚ`-valued parameter `now`; Python floats
  carrying scores are modelled as `ℚ`.
* A stored Python value is `Option V`: `none` models Python `None`.
* Fallible code returns `Except`; the background sweep's outcome records
  whether CPython's `RuntimeError` for mutating a dict during iteration
  fires.
-/

namespace MediaCrawler

/-! ## Python dict primitives (string-keyed, insertion ordered) -/

/-- `d.get(key, default)`-style lookup in a string-keyed Python dict
    modelled as an insertion-ordered association list: first (and, under
    the dict invariant, only) binding for the key. -/
def assocLookup {β : Type} : List (String × β) → String → Option β
  | [], _ => none
  | e :: rest, key => if e.1 == key then some e.2 else assocLookup rest key

/-- Python dict assignment `d[k] = v`: update in place when the key is
    present (keeping its position), append otherwise. -/
def assocSet {β : Type} : List (String × β) → String → β →
    List (String × β)
  | [], key, v => [(key, v)]
  | e :: rest, key, v =>
    if e.1 == key then (key, v) :: rest else e :: assocSet rest key v

/-- `del d[key]`: drop the binding, keeping the order of the others. -/
def assocDel {β : Type} (c : List (String × β)) (key : String) :
    List (String × β) :=
  c.filter (fun e => ¬ (e.1 == key))

/-- A Python `dict` entry store: key, stored value (`none` = Python `None`)
    and the absolute expiry time, in insertion order. -/
abbrev CacheContainer (V : Type) := List (String × Option V × ℚ)

/-- `self._cache_container.get(key, ...)` without the default. -/
def lookupEntry {V : Type} (c : CacheContainer V) (key : String) :
    Option (Option V × ℚ) :=
  assocLookup c key

/-- `self._cache_container[key] = (value, expire_at)`. -/
def dictSet {V : Type} (c : CacheContainer V) (key : String)
    (v : Option V) (expireAt : ℚ) : CacheContainer V :=
  assocSet c key (v, expireAt)

/-- `del self._cache_container[key]`. -/
def dictDel {V : Type} (c : CacheContainer V) (key : String) :
    CacheContainer V :=
  assocDel c key

/-- Python's substring test `pat in s`, on the character lists. -/
def charsContain (hay pat : List Char) : Bool :=
  match hay with
  | [] => pat.isEmpty
  | _ :: rest => pat.isPrefixOf hay || charsContain rest pat

/-- Python's substring test `pat in s` for strings. -/
def pyIn (pat s : String) : Bool :=
  charsContain s.data pat.data

/-- `pattern.replace('*', '')`: remove every `'*'` character. -/
def stripStars (pattern : String) : String :=
  String.mk (pattern.data.filter (fun ch => ¬ (ch == '*')))

namespace ExpiringLocalCache

/-! ## `ExpiringLocalCache` (cache/local_cache.py) -/

/-- `ExpiringLocalCache.get`.  Source:
    `value, expire_time = self._cache_container.get(key, (None, 0))` —
    then `if value is None: return None`, then
    `if expire_time < time.time(): del ...; return None`, else the value.
    Returns the Python return value together with the container after the
    call (`get` lazily deletes an expired entry). -/
def get {V : Type} (c : CacheContainer V) (key : String) (now : ℚ) :
    Option V × CacheContainer V :=
  match lookupEntry c key with
  | none => (none, c)
  | some (value, expireTime) =>
    match value with
    | none => (none, c)
    | some v =>
      if expireTime < now then (none, dictDel c key) else (some v, c)

/-- `ExpiringLocalCache.set`:
    `self._cache_container[key] = (value, time.time() + expire_time)`. -/
def set {V : Type} (c : CacheContainer V) (key : String) (value : Option V)
    (expireTime : ℚ) (now : ℚ) : CacheContainer V :=
  dictSet c key value (now + expireTime)

/-- `ExpiringLocalCache.keys`: `'*'` returns every key of the container;
    any other pattern first has every `'*'` stripped and is then used as a
    plain substring filter. -/
def keys {V : Type} (c : CacheContainer V) (pattern : String) :
    List String :=
  if pattern == "*" then c.map (·.1)
  else
    let pattern :=
      if pattern.data.contains '*' then stripStars pattern else pattern
    (c.filter (fun e => pyIn pattern e.1)).map (·.1)

/-- One pass of `ExpiringLocalCache._clear`, iterating the live dict:
    `for key, (value, expire_time) in self._cache_container.items():` with
    `del self._cache_container[key]` on an expired entry.  CPython raises
    `RuntimeError: dictionary changed size during iteration` at the very
    next call of the iterator's `__next__` after a deletion, so the pass
    deletes at most the first expired entry; `.error` carries the
    container as left behind by the aborted pass. -/
def clearLoop {V : Type} (now : ℚ) :
    List (String × Option V × ℚ) → CacheContainer V →
    Except (CacheContainer V) (CacheContainer V)
  | [], c => .ok c
  | (key, _, expireTime) :: rest, c =>
    if expireTime < now then .error (dictDel c key)
    else clearLoop now rest c

/-- `ExpiringLocalCache._clear` run at time `now`. -/
def clear {V : Type} (c : CacheContainer V) (now : ℚ) :
    Except (CacheContainer V) (CacheContainer V) :=
  clearLoop now c c

/-- An entry for `key` exists and has not yet been lazily evictable at
    `now` (the code's liveness test in `get` is `now ≤ expire_time`,
    i.e. the strict `expire_time < now` fails). -/
def entryLive {V : Type} (c : CacheContainer V) (key : String) (now : ℚ) :
    Prop :=
  ∃ p, lookupEntry c key = some p ∧ now ≤ p.2

instance {V : Type} (c : CacheContainer V) (key : String) (now : ℚ) :
    Decidable (entryLive c key now) := by
  unfold entryLive
  match lookupEntry c key with
  | none => exact .isFalse (by simp)
  | some p =>
    by_cases h : now ≤ p.2
    · exact .isTrue ⟨p, rfl, h⟩
    · exact .isFalse (by simpa using h)

end ExpiringLocalCache

/-! ## Python string primitives used by the LLM agent -/

/-- `sep.isPrefixOf l` with the matched prefix consumed. -/
def stripPrefixChars : List Char → List Char → Option (List Char)
  | [], l => some l
  | _ :: _, [] => none
  | c :: srest, d :: lrest =>
    if c == d then stripPrefixChars srest lrest else none

/-- Python `s.split(sep)` for a non-empty separator, on character lists:
    split at each non-overlapping occurrence of `sep`, scanning left to
    right; `n` occurrences yield `n + 1` pieces. -/
def pySplitOnChars (sep : List Char) : List Char → List Char →
    List (List Char)
  | [], acc => [acc.reverse]
  | c :: rest, acc =>
    if 0 < sep.length ∧ sep.isPrefixOf (c :: rest) = true then
      acc.reverse :: pySplitOnChars sep (List.drop sep.length (c :: rest)) []
    else pySplitOnChars sep rest (c :: acc)
termination_by l _ => l.length
decreasing_by
  · simp only [List.length_drop, List.length_cons]
    omega
  · simp only [List.length_cons]
    omega

/-- Python `s.split(sep)` (non-empty `sep`). -/
def pySplitOn (s sep : String) : List String :=
  (pySplitOnChars sep.data s.data []).map String.mk

/-- Python `s.split()` (no argument): tokens are maximal runs of
    non-whitespace characters; no empty tokens are produced. -/
def wsTokensAux : List Char → List Char → List (List Char)
  | [], acc => if acc == [] then [] else [acc.reverse]
  | c :: rest, acc =>
    if c.isWhitespace then
      if acc == [] then wsTokensAux rest []
      else acc.reverse :: wsTokensAux rest []
    else wsTokensAux rest (c :: acc)

/-- Python `s.split()` (no argument). -/
def pySplitWs (s : String) : List String :=
  (wsTokensAux s.data []).map String.mk

/-- Python `s.replace(a, b)` where both arguments are single characters
    (the agent only replaces `，` by `,` and `。` by `.`). -/
def pyReplaceChar (s : String) (a b : Char) : String :=
  String.mk (s.data.map (fun c => if c == a then b else c))

/-- Python `s.strip()`: drop leading and trailing whitespace. -/
def pyStrip (s : String) : String :=
  String.mk
    (((s.data.dropWhile Char.isWhitespace).reverse.dropWhile
      Char.isWhitespace).reverse)

/-- Python `len(s)`: number of characters (code points). -/
def pyLen (s : String) : Nat := s.data.length

/-- Python `s[:n]`. -/
def pyTake (s : String) (n : Nat) : String := String.mk (s.data.take n)

/-- Python `a or b` on strings: `a` if truthy (non-empty), else `b`. -/
def pyOr (a b : String) : String := if a == "" then b else a

/-- Python `d.get(k, "")` for an optional string field. -/
def pyGetStr (f : Option String) : String := f.getD ""

/-! ## `LLMAgent` (ai_agent/llm_agent.py) -/

mutual
/-- A parsed JSON value, the codomain of `json.loads`.  An object's field
    list models a Python dict: insertion-ordered, pairwise-distinct keys. -/
inductive JValue : Type where
  | jnull : JValue
  | jbool : Bool → JValue
  | jnum : ℚ → JValue
  | jstr : String → JValue
  | jobj : JFields → JValue
deriving DecidableEq
/-- The field list of a parsed JSON object. -/
inductive JFields : Type where
  | nil : JFields
  | cons : String → JValue → JFields → JFields
deriving DecidableEq
end

/-- First binding for a key in an object's field list. -/
def JFields.lookup : JFields → String → Option JValue
  | .nil, _ => none
  | .cons k v rest, key => if k == key then some v else rest.lookup key

/-- The dict `{"is_relevant": ..., "score": ..., "reason": ...}` returned
    by `LLMAgent.judge_relevance` / `_simple_relevance_check`; in the
    parsed-response path the values come straight from the JSON, so each
    field is a `JValue`. -/
structure Verdict : Type where
  is_relevant : JValue
  score : JValue
  reason : JValue
deriving DecidableEq

/-- Python `result.get(k, default)` on a parsed JSON object. -/
def pyDictGet (fields : JFields) (k : String) (default : JValue) :
    JValue :=
  (fields.lookup k).getD default

namespace LLMAgent

/-- `set(event_description.replace("，", ",").replace("。", ".").split())`. -/
def eventKeywordSet (eventDescription : String) : Finset String :=
  (pySplitWs (pyReplaceChar (pyReplaceChar eventDescription '，' ',')
    '。' '.')).toFinset

/-- `set(content_text.split())`. -/
def contentWordSet (contentText : String) : Finset String :=
  (pySplitWs contentText).toFinset

/-- `LLMAgent._simple_relevance_check`: whitespace-tokenize both texts
    (the event description after replacing `，`/`。` with ASCII `,`/`.`),
    take `score = |intersection| / |event tokens|` (`0.0` when the event
    has no tokens), return `is_relevant = score > 0.2`, the score clamped
    by `min(score, 1.0)`, and the `"关键词匹配度: i/e"` reason string. -/
def simpleRelevanceCheck (contentText eventDescription : String) :
    Verdict :=
  let eventKeywords : Finset String := eventKeywordSet eventDescription
  let contentWords : Finset String := contentWordSet contentText
  let intersection := eventKeywords ∩ contentWords
  let score : ℚ :=
    if 0 < eventKeywords.card then
      (intersection.card : ℚ) / (eventKeywords.card : ℚ)
    else 0
  { is_relevant := .jbool (decide ((1 : ℚ)/5 < score)),
    score := .jnum (min score 1),
    reason := .jstr ("关键词匹配度: " ++ toString intersection.card ++ "/"
      ++ toString eventKeywords.card) }

/-- The fallback's score before the `min(score, 1.0)` clamp — the
    `score` local of `_simple_relevance_check`, as a named function. -/
def fallbackScore (contentText eventDescription : String) : ℚ :=
  if 0 < (eventKeywordSet eventDescription).card then
    (((eventKeywordSet eventDescription) ∩
      (contentWordSet contentText)).card : ℚ) /
      ((eventKeywordSet eventDescription).card : ℚ)
  else 0

/-- The platform-specific assembly of `content_text` at the top of
    `LLMAgent.judge_relevance`. -/
def assembleContentText (platform : String)
    (title content text desc : Option String) : String :=
  if platform == "weibo" then pyOr (pyGetStr content) (pyGetStr text)
  else if platform == "bilibili" then
    pyGetStr title ++ " " ++ pyGetStr desc
  else if platform == "zhihu" then
    pyGetStr title ++ " " ++ pyGetStr content
  else pyGetStr title ++ " " ++ pyGetStr content

/-- Outcome of the guard-clause section of `judge_relevance`: either an
    early return (no model call) or a model call with the assembled,
    possibly truncated text. -/
inductive JudgeStep : Type where
  | earlyReturn : Verdict → JudgeStep
  | callModel : String → JudgeStep
deriving DecidableEq

/-- `LLMAgent.judge_relevance` up to (and excluding) the remote call:
    the missing-credential early return, the short-text guard
    (`if not content_text or len(content_text.strip()) < 10`), and the
    1000-character truncation with the `"..."` marker. -/
def judgePrepare (hasApiKey : Bool) (platform : String)
    (title content text desc : Option String) : JudgeStep :=
  if !hasApiKey then
    .earlyReturn { is_relevant := .jbool true,
                   score := .jnum (1/2),
                   reason := .jstr "API未配置，默认相关" }
  else
    let contentText := assembleContentText platform title content text desc
    if contentText == "" || pyLen (pyStrip contentText) < 10 then
      .earlyReturn { is_relevant := .jbool false,
                     score := .jnum 0,
                     reason := .jstr "内容文本过短" }
    else
      let contentText :=
        if 1000 < pyLen contentText then pyTake contentText 1000 ++ "..."
        else contentText
      .callModel contentText

/-- The fence-stripping applied to the raw model reply:
    `response.split("```json")[1].split("```")[0].strip()` when a
    "```json" fence is present, else the analogous bare-fence case, else
    the reply unchanged. -/
def stripFences (response : String) : String :=
  if pyIn "```json" response then
    pyStrip (((pySplitOn ((pySplitOn response "```json").getD 1 "")
      "```").getD 0 ""))
  else if pyIn "```" response then
    pyStrip (((pySplitOn ((pySplitOn response "```").getD 1 "")
      "```").getD 0 ""))
  else response

/-- The response-handling tail of `judge_relevance`.  `loads` models the
    external `json.loads`: `none` is a `JSONDecodeError`.  A parsed
    object is read with `result.get(key, default)` for the three keys; a
    parsed non-object makes `result.get` raise `AttributeError`, caught
    by the enclosing `except`, and a decode error falls through — both
    reach `self._simple_relevance_check(content_text, event_description)`
    (with the truncated `content_text`). -/
def judgeHandleResponse (loads : String → Option JValue)
    (response contentText eventDescription : String) : Verdict :=
  match loads (stripFences response) with
  | some (.jobj fields) =>
    { is_relevant := pyDictGet fields "is_relevant" (.jbool false),
      score := pyDictGet fields "score" (.jnum 0),
      reason := pyDictGet fields "reason" (.jstr "未提供理由") }
  | some _ => simpleRelevanceCheck contentText eventDescription
  | none => simpleRelevanceCheck contentText eventDescription

/-- Outcome of the remote call `_call_llm`: a reply string, or any
    network/HTTP exception. -/
inductive CallOutcome : Type where
  | success : String → CallOutcome
  | failure : CallOutcome

/-- `LLMAgent.judge_relevance`, end to end: guard clauses, then — only
    when a model call happens — response handling on success and the
    deterministic fallback on a raised exception. -/
def judgeRelevance (hasApiKey : Bool) (loads : String → Option JValue)
    (outcome : CallOutcome) (platform : String)
    (title content text desc : Option String)
    (eventDescription : String) : Verdict :=
  match judgePrepare hasApiKey platform title content text desc with
  | .earlyReturn v => v
  | .callModel contentText =>
    match outcome with
    | .success response =>
      judgeHandleResponse loads response contentText eventDescription
    | .failure => simpleRelevanceCheck contentText eventDescription

/-- A concrete stand-in for the external `json.loads`, used to
    instantiate concrete runs: it agrees with Python's `json.loads` on
    the input `"{}"` (the empty object) and reports a decode error on
    every other string. -/
def loadsEmptyObj : String → Option JValue :=
  fun s => if s == "\x7b\x7d" then some (.jobj .nil) else none

end LLMAgent

/-! ## `DataPostProcessor` (data_postprocessor.py) -/

/-- Python `s in seen` for a set of strings (modelled as a list). -/
def strSeenContains (seen : List String) (s : String) : Bool :=
  seen.any (fun t => t == s)

/-- Python `(p, i) in seen` for a set of `(platform, id)` tuples. -/
def pairSeenContains (seen : List (String × String)) (p i : String) :
    Bool :=
  seen.any (fun e => e.1 == p && e.2 == i)

namespace DataPostProcessor

/-- One raw platform record, as read from a `search_contents_*.json`
    file: the id fields the load stage consults (already in their
    `str(...)` form) and an opaque remainder `body` standing for every
    other field of the dict. -/
structure RawItem : Type where
  note_id : Option String := none
  video_id : Option String := none
  body : String := ""
deriving DecidableEq

/-- The dedup loop shared by `_load_weibo_data` and
    `_load_bilibili_data`: `id = item.get(<id field>)` followed by
    `if id and id not in seen_ids:` — add to `seen_ids`, append to
    `unique_data`, and store the item in the per-platform
    `_cached_data` index under `str(id)`. -/
def loadDedupAux {α : Type} (getId : α → Option String) :
    List α → List String → List α → List (String × α) →
    List α × List (String × α)
  | [], _, uniq, cache => (uniq, cache)
  | item :: rest, seen, uniq, cache =>
    match getId item with
    | some itemId =>
      if !(itemId == "") && !(strSeenContains seen itemId) then
        loadDedupAux getId rest (itemId :: seen) (uniq ++ [item])
          (assocSet cache itemId item)
      else loadDedupAux getId rest seen uniq cache
    | none => loadDedupAux getId rest seen uniq cache

/-- A platform's load stage over the already-concatenated raw record
    list: returns `unique_data` and the in-memory `_cached_data` index
    for that platform. -/
def loadPlatformData {α : Type} (getId : α → Option String)
    (items : List α) : List α × List (String × α) :=
  loadDedupAux getId items [] [] []

/-- `_load_weibo_data`: the id field is `note_id`. -/
def loadWeiboData (items : List RawItem) :
    List RawItem × List (String × RawItem) :=
  loadPlatformData (fun it => it.note_id) items

/-- `_load_bilibili_data`: the id field is `video_id`. -/
def loadBilibiliData (items : List RawItem) :
    List RawItem × List (String × RawItem) :=
  loadPlatformData (fun it => it.video_id) items

/-- The predicate picking, among the raw items, those whose (truthy) id
    equals `k` — used to phrase "the first occurrence of key `k`". -/
def idMatches {α : Type} (getId : α → Option String) (k : String)
    (it : α) : Bool :=
  match getId it with
  | some s => !(s == "") && s == k
  | none => false

/-- A record of `save_relevant_data`'s combined output list: a copy of
    the cached record, stamped with the two added fields `platform` and
    `relevance_id` (dict assignment on the copy; the abstract `record`
    stands for all remaining fields). -/
structure StampedRecord (α : Type) : Type where
  record : α
  platform : String
  relevance_id : String
deriving DecidableEq

/-- The per-platform collection loop of `save_relevant_data`:
    for each id of the platform's relevant-id list, skip when
    `(platform, id)` is in `seen_ids`, else add it to `seen_ids` and, if
    the id is in that platform's `_cached_data`, append the stamped copy
    to `all_relevant_data`. -/
def collectLoop {α : Type} (platform : String)
    (cache : List (String × α)) :
    List String → List (String × String) → List (StampedRecord α) →
    List (String × String) × List (StampedRecord α)
  | [], seen, acc => (seen, acc)
  | relId :: rest, seen, acc =>
    if pairSeenContains seen platform relId then
      collectLoop platform cache rest seen acc
    else
      match assocLookup cache relId with
      | some record =>
        collectLoop platform cache rest ((platform, relId) :: seen)
          (acc ++ [⟨record, platform, relId⟩])
      | none =>
        collectLoop platform cache rest ((platform, relId) :: seen) acc

/-- The files written by `save_relevant_data`, by content: `none` when
    the write is skipped (`all_relevant_data` empty).
    `convert_ids_to_string` is the identity on our already-string ids. -/
structure SaveResult (α : Type) : Type where
  combined : List (StampedRecord α)
  snapshotFile : Option (List (StampedRecord α))
  latestFile : Option (List (StampedRecord α))
deriving DecidableEq

/-- `DataPostProcessor.save_relevant_data`: one shared `seen_ids` set
    across the three platform loops (weibo, bilibili, zhihu, in that
    order); when the combined list is non-empty it is dumped unchanged
    to the timestamped snapshot file and again to the latest file. -/
def saveRelevantData {α : Type} (relWeibo relBili relZhihu : List String)
    (cacheWeibo cacheBili cacheZhihu : List (String × α)) :
    SaveResult α :=
  let s1 := collectLoop "weibo" cacheWeibo relWeibo [] []
  let s2 := collectLoop "bilibili" cacheBili relBili s1.1 s1.2
  let s3 := collectLoop "zhihu" cacheZhihu relZhihu s2.1 s2.2
  let allRelevant := s3.2
  if allRelevant.isEmpty then
    { combined := allRelevant, snapshotFile := none, latestFile := none }
  else
    { combined := allRelevant, snapshotFile := some allRelevant,
      latestFile := some allRelevant }

/-- Keep the first occurrence of each string, dropping later
    duplicates (spec-side helper for the C8 refinement statement). -/
def dedupKeepFirstAux : List String → List String → List String
  | [], _ => []
  | x :: rest, seen =>
    if strSeenContains seen x then dedupKeepFirstAux rest seen
    else x :: dedupKeepFirstAux rest (x :: seen)

/-- Keep the first occurrence of each string. -/
def dedupKeepFirst (l : List String) : List String :=
  dedupKeepFirstAux l []

/-- Modelled from the spec (C8 wording), for comparison with
    `saveRelevantData`: "for each platform and each id in that
    platform's relevant-id list in classify order, if the id has a
    cached in-memory record, a copy stamped with the added fields
    platform and relevance_id is appended to one combined sequence
    deduplicated by (platform, id)". -/
def specStampSelect {α : Type} (platform : String) (relIds : List String)
    (cache : List (String × α)) : List (StampedRecord α) :=
  (dedupKeepFirst relIds).filterMap
    (fun i => (assocLookup cache i).map
      (fun r => ⟨r, platform, i⟩))

end DataPostProcessor

/-! ## Association-list helper lemmas -/

theorem assocLookup_set_self {β : Type} (c : List (String × β))
    (k : String) (v : β) : assocLookup (assocSet c k v) k = some v := by
  induction c with
  | nil => simp [assocSet, assocLookup]
  | cons e rest ih =>
    by_cases h : e.1 == k
    · simp [assocSet, h, assocLookup]
    · simp [assocSet, h, assocLookup, ih]

theorem assocLookup_set_ne {β : Type} (c : List (String × β))
    (k k' : String) (v : β) (h : k' ≠ k) :
    assocLookup (assocSet c k v) k' = assocLookup c k' := by
  have hkk : (k == k') = false := by
    simp only [beq_eq_false_iff_ne, ne_eq]
    exact fun he => h he.symm
  induction c with
  | nil =>
    simp only [assocSet, assocLookup, hkk, Bool.false_eq_true, if_false]
  | cons e rest ih =>
    by_cases he : e.1 == k
    · have he' : e.1 = k := by simpa using he
      simp only [assocSet, assocLookup, hkk, Bool.false_eq_true,
        if_false, he', beq_self_eq_true, if_true]
    · simp only [assocSet, if_neg he, assocLookup, ih]

theorem assocLookup_eq_none_iff {β : Type} (c : List (String × β))
    (k : String) :
    assocLookup c k = none ↔ k ∉ c.map Prod.fst := by
  induction c with
  | nil => simp [assocLookup]
  | cons e rest ih =>
    by_cases h : e.1 == k
    · have h' : e.1 = k := by simpa using h
      simp [assocLookup, h, h']
    · have h' : ¬ e.1 = k := by simpa using h
      rw [show assocLookup (e :: rest) k = assocLookup rest k by
        simp only [assocLookup, if_neg h], ih]
      constructor
      · intro hnot hmem
        rcases List.mem_cons.mp hmem with hh | hh
        · exact h' hh.symm
        · exact hnot hh
      · intro hnot hmem
        exact hnot (List.mem_cons_of_mem _ hmem)

theorem assocSet_keys_of_fresh {β : Type} (c : List (String × β))
    (k : String) (v : β) (h : assocLookup c k = none) :
    (assocSet c k v).map Prod.fst = c.map Prod.fst ++ [k] := by
  induction c with
  | nil => simp [assocSet]
  | cons e rest ih =>
    simp only [assocLookup] at h
    by_cases he : e.1 == k
    · rw [if_pos he] at h; exact absurd h (by simp)
    · rw [if_neg he] at h
      simp [assocSet, he, ih h]

/-! ## Theorems about the expiring cache -/

/-- C3: the claim says a single pass of the periodic background sweep
    completes without error and removes exactly the entries whose
    `expires_at` has passed.  The code's `_clear` deletes from
    `self._cache_container` while iterating `.items()`, so in CPython the
    very next iterator step raises
    `RuntimeError: dictionary changed size during iteration`: on a
    container with two expired entries, the pass deletes only the first
    and aborts, leaving the second expired entry in place. -/
theorem clear_sweep_raises_on_expired :
    ExpiringLocalCache.clear
        ([("a", some 1, (1 : ℚ)), ("b", some 2, 1)] : CacheContainer Nat)
        2 =
      .error [("b", some 2, (1 : ℚ))] := rfl

/-- C2 counterexample: on a container holding only an entry that has
    already expired (expiry 1, current time 2), `keys("*")` still returns
    that key, although no key has a live entry — `keys` never consults
    the expiry times. -/
theorem keys_star_includes_expired :
    ExpiringLocalCache.keys
        ([("k", some 1, (1 : ℚ))] : CacheContainer Nat) "*" = ["k"] ∧
    ¬ ExpiringLocalCache.entryLive
        ([("k", some 1, (1 : ℚ))] : CacheContainer Nat) "k" 2 := by
  refine ⟨rfl, ?_⟩
  rintro ⟨p, hp, hle⟩
  rw [show lookupEntry ([("k", some 1, (1 : ℚ))] : CacheContainer Nat) "k"
      = some (some 1, (1 : ℚ)) from rfl] at hp
  cases hp
  exact absurd hle (by norm_num)

theorem filter_no_star_eq_self (l : List Char)
    (h : l.contains '*' = false) :
    l.filter (fun a => ¬ (a == '*')) = l := by
  induction l with
  | nil => rfl
  | cons c rest ih =>
    simp only [List.contains_cons, Bool.or_eq_false_iff] at h
    simp only [List.filter_cons]
    rw [if_pos (by simp; intro he; rw [he] at h; simp at h), ih h.2]

theorem mem_map_fst_filter {β : Type} (c : List (String × β))
    (q : String → Bool) (k : String) :
    k ∈ (c.filter (fun e => q e.1)).map Prod.fst ↔
      k ∈ c.map Prod.fst ∧ q k = true := by
  induction c with
  | nil => simp
  | cons e rest ih =>
    by_cases h : q e.1
    · simp only [List.filter_cons, if_pos h, List.map_cons, List.mem_cons,
        ih]
      constructor
      · rintro (rfl | ⟨hk, hq⟩)
        · exact ⟨Or.inl rfl, h⟩
        · exact ⟨Or.inr hk, hq⟩
      · rintro ⟨(rfl | hk), hq⟩
        · exact Or.inl rfl
        · exact Or.inr ⟨hk, hq⟩
    · simp only [List.filter_cons, if_neg h, List.map_cons, List.mem_cons,
        ih]
      constructor
      · rintro ⟨hk, hq⟩
        exact ⟨Or.inr hk, hq⟩
      · rintro ⟨(rfl | hk), hq⟩
        · exact absurd hq h
        · exact ⟨hk, hq⟩

/-- C2 (amended): `keys("*")` returns exactly the keys present in the
    container at call time, expired-but-not-yet-evicted entries included;
    for any other pattern, exactly the container keys that contain the
    pattern with its `'*'` characters stripped as a substring. -/
theorem keys_match_container_substring {V : Type} (c : CacheContainer V)
    (p k : String) (hp : p ≠ "*") :
    (ExpiringLocalCache.keys c "*" = c.map (·.1)) ∧
    (k ∈ ExpiringLocalCache.keys c p ↔
      k ∈ c.map (·.1) ∧ pyIn (stripStars p) k = true) := by
  constructor
  · simp [ExpiringLocalCache.keys]
  · have hbeq : (p == "*") = false := by
      simpa using hp
    have hps : (if p.data.contains '*' then stripStars p else p) =
        stripStars p := by
      by_cases hc : p.data.contains '*'
      · rw [if_pos hc]
      · rw [if_neg hc]
        unfold stripStars
        rw [filter_no_star_eq_self p.data (by simpa using hc)]
    show k ∈ ExpiringLocalCache.keys c p ↔ _
    unfold ExpiringLocalCache.keys
    rw [if_neg (by simp [hp]), hps]
    exact mem_map_fst_filter c (fun s => pyIn (stripStars p) s) k

/-- C2 witness for `keys_match_container_substring`: a concrete
    container whose key "ka" matches the pattern "k*a" as a substring
    after star-stripping. -/
theorem keys_match_container_substring_witness :
    ("k*a" ≠ "*") ∧
    ((ExpiringLocalCache.keys
        ([("ka", some 1, (5 : ℚ)), ("b", some 2, 9)] : CacheContainer Nat)
        "*" =
      ([("ka", some 1, (5 : ℚ)), ("b", some 2, 9)] :
        CacheContainer Nat).map (·.1)) ∧
     ("ka" ∈ ExpiringLocalCache.keys
        ([("ka", some 1, (5 : ℚ)), ("b", some 2, 9)] : CacheContainer Nat)
        "k*a" ↔
      "ka" ∈ ([("ka", some 1, (5 : ℚ)), ("b", some 2, 9)] :
        CacheContainer Nat).map (·.1) ∧ pyIn (stripStars "k*a") "ka" =
        true)) :=
  ⟨by decide,
   keys_match_container_substring
     ([("ka", some 1, (5 : ℚ)), ("b", some 2, 9)] : CacheContainer Nat)
     "k*a" "ka" (by decide)⟩

/-- C5 counterexample: two concrete divergences from "get(key) returns
    absent if and only if the key was never set or now >= expires_at".
    First, at the exact boundary `now = expires_at` (a `set` of 1 at time
    0 with ttl 5, read at time 5) the code still returns the value — the
    eviction test is strict `expire_time < time.time()`.  Second, a `set`
    that stores Python `None` (read at time 1, well before expiry) returns
    absent although an entry exists and its TTL has not elapsed. -/
theorem get_boundary_and_none_divergence :
    ((0 : ℚ) + 5 ≤ 5) ∧
    (ExpiringLocalCache.get
        (ExpiringLocalCache.set ([] : CacheContainer Nat) "k" (some 1) 5 0)
        "k" 5).1 = some 1 ∧
    ((1 : ℚ) < 0 + 5) ∧
    (ExpiringLocalCache.get
        (ExpiringLocalCache.set ([] : CacheContainer Nat) "k" none 5 0)
        "k" 1).1 = none := by
  refine ⟨by norm_num, ?_, by norm_num, rfl⟩
  show (ExpiringLocalCache.get [("k", some 1, (0 : ℚ) + 5)] "k" 5).1 =
    some 1
  simp only [ExpiringLocalCache.get, lookupEntry, assocLookup,
    beq_self_eq_true, if_true]
  norm_num

/-- C5 (amended): for a key whose most recent `set` stored a non-None
    value, `get` returns absent iff the key is unset or strictly
    `expires_at < now`; an elapsed entry is deleted by that access, a
    live one is returned with the container unchanged; and a `set`
    always overwrites the entry with the new value and expiry
    `now + ttl`. -/
theorem get_absent_iff_strictly_elapsed {V : Type} (c : CacheContainer V)
    (key : String) (now : ℚ) :
    (lookupEntry c key = none →
      ExpiringLocalCache.get c key now = (none, c)) ∧
    (∀ (v : V) (e : ℚ), lookupEntry c key = some (some v, e) →
      (((ExpiringLocalCache.get c key now).1 = none) ↔ e < now) ∧
      (e < now →
        ExpiringLocalCache.get c key now = (none, dictDel c key)) ∧
      (¬ e < now → ExpiringLocalCache.get c key now = (some v, c))) ∧
    (∀ (v : Option V) (ttl : ℚ),
      lookupEntry (ExpiringLocalCache.set c key v ttl now) key =
        some (v, now + ttl)) := by
  refine ⟨?_, ?_, ?_⟩
  · intro h
    simp [ExpiringLocalCache.get, h]
  · intro v e h
    by_cases hlt : e < now
    · refine ⟨?_, fun _ => ?_, fun hn => absurd hlt hn⟩ <;>
        simp [ExpiringLocalCache.get, h, hlt]
    · refine ⟨?_, fun hl => absurd hl hlt, fun _ => ?_⟩ <;>
        simp [ExpiringLocalCache.get, h, hlt]
  · intro v ttl
    exact assocLookup_set_self c key (v, now + ttl)

/-- C5 witness for `get_absent_iff_strictly_elapsed`: on a container
    with a strictly elapsed entry, `get` at time 6 is absent. -/
theorem get_absent_iff_strictly_elapsed_witness :
    lookupEntry ([("k", some 1, (5 : ℚ))] : CacheContainer Nat) "k" =
      some (some 1, (5 : ℚ)) ∧
    ((5 : ℚ) < 6) ∧
    (ExpiringLocalCache.get
      ([("k", some 1, (5 : ℚ))] : CacheContainer Nat) "k" 6).1 = none :=
  ⟨rfl, by decide,
   ((get_absent_iff_strictly_elapsed
       ([("k", some 1, (5 : ℚ))] : CacheContainer Nat) "k"
       6).2.1 1 5 rfl).1.mpr (by decide)⟩

/-- C10: a `set` that stores Python `None` makes every subsequent `get`
    of that key return absent, even at a time strictly before the
    entry's expiry; the access leaves the container untouched (no lazy
    deletion), and the un-expired entry is still present (shown by the
    lookup).  `get` cannot distinguish the stored `None` from a missing
    key because the dict default `(None, 0)` and a stored `None` take the
    same `if value is None` branch. -/
theorem set_none_get_absent {V : Type} (c : CacheContainer V)
    (key : String) (ttl now now2 : ℚ) (_hfresh : now2 < now + ttl) :
    ExpiringLocalCache.get (ExpiringLocalCache.set c key none ttl now) key
        now2 =
      (none, ExpiringLocalCache.set c key none ttl now) ∧
    lookupEntry (ExpiringLocalCache.set c key none ttl now) key =
      some (none, now + ttl) := by
  have h := assocLookup_set_self c key ((none : Option V), now + ttl)
  constructor
  · simp [ExpiringLocalCache.get, lookupEntry, ExpiringLocalCache.set,
      dictSet, h]
  · exact h

/-- C10 witness for `set_none_get_absent`: ttl 5 at time 0, read at
    time 1. -/
theorem set_none_get_absent_witness :
    ((1 : ℚ) < 0 + 5) ∧
    (ExpiringLocalCache.get
        (ExpiringLocalCache.set ([] : CacheContainer Nat) "k" none 5 0)
        "k" 1 =
      (none, ExpiringLocalCache.set ([] : CacheContainer Nat) "k" none 5 0)
      ∧
    lookupEntry (ExpiringLocalCache.set ([] : CacheContainer Nat) "k"
        none 5 0) "k" = some (none, 0 + 5)) :=
  ⟨by simp,
   set_none_get_absent ([] : CacheContainer Nat) "k" 5 0 1 (by simp)⟩

/-! ## Theorems about the LLM agent -/

theorem pyLen_pyStrip_le (s : String) : pyLen (pyStrip s) ≤ pyLen s := by
  unfold pyLen pyStrip
  show (((s.data.dropWhile Char.isWhitespace).reverse.dropWhile
    Char.isWhitespace).reverse).length ≤ s.data.length
  rw [List.length_reverse]
  calc ((s.data.dropWhile Char.isWhitespace).reverse.dropWhile
      Char.isWhitespace).length
      ≤ (s.data.dropWhile Char.isWhitespace).reverse.length :=
        (List.dropWhile_sublist Char.isWhitespace).length_le
    _ = (s.data.dropWhile Char.isWhitespace).length :=
        List.length_reverse _
    _ ≤ s.data.length :=
        (List.dropWhile_sublist Char.isWhitespace).length_le

/-- C1 (amended): with no API credential configured, `judge_relevance`
    returns the fixed verdict `is_relevant=true, score=0.5,
    reason="API未配置，默认相关"`, without any network call (the
    pre-call stage already early-returns), independent of the content,
    the event description, the platform and any would-be response — it
    is not the keyword-overlap fallback verdict. -/
theorem judge_relevance_no_key_fixed_verdict
    (loads : String → Option JValue) (outcome : LLMAgent.CallOutcome)
    (platform : String) (title content text desc : Option String)
    (eventDescription : String) :
    LLMAgent.judgeRelevance false loads outcome platform title content
        text desc eventDescription =
      ⟨.jbool true, .jnum (1/2), .jstr "API未配置，默认相关"⟩ ∧
    LLMAgent.judgePrepare false platform title content text desc =
      .earlyReturn
        ⟨.jbool true, .jnum (1/2), .jstr "API未配置，默认相关"⟩ :=
  ⟨rfl, rfl⟩

/-- C1 counterexample: with no credential, for the weibo content
    "apple banana cherry dog elephant" and the event "zebra", the
    returned verdict is the fixed `true`/`0.5` one, while the
    deterministic keyword-overlap fallback on the same texts scores `0`
    and judges not relevant — so `judge_relevance` does not return the
    fallback verdict. -/
theorem judge_relevance_no_key_not_fallback :
    LLMAgent.judgeRelevance false (fun _ => none) .failure "weibo" none
        (some "apple banana cherry dog elephant") none none "zebra" =
      ⟨.jbool true, .jnum (1/2), .jstr "API未配置，默认相关"⟩ ∧
    LLMAgent.simpleRelevanceCheck
        (LLMAgent.assembleContentText "weibo" none
          (some "apple banana cherry dog elephant") none none) "zebra" =
      ⟨.jbool false, .jnum 0, .jstr "关键词匹配度: 0/1"⟩ ∧
    LLMAgent.judgeRelevance false (fun _ => none) .failure "weibo" none
        (some "apple banana cherry dog elephant") none none "zebra" ≠
      LLMAgent.simpleRelevanceCheck
        (LLMAgent.assembleContentText "weibo" none
          (some "apple banana cherry dog elephant") none none) "zebra" := by
  have hcard : (LLMAgent.eventKeywordSet "zebra").card = 1 := by decide
  have hint : (LLMAgent.eventKeywordSet "zebra" ∩
      LLMAgent.contentWordSet
        (LLMAgent.assembleContentText "weibo" none
          (some "apple banana cherry dog elephant") none none)).card = 0 :=
    by decide
  have hfb : LLMAgent.simpleRelevanceCheck
      (LLMAgent.assembleContentText "weibo" none
        (some "apple banana cherry dog elephant") none none) "zebra" =
      ⟨.jbool false, .jnum 0, .jstr "关键词匹配度: 0/1"⟩ := by
    simp only [LLMAgent.simpleRelevanceCheck, hcard, hint]
    norm_num
    rfl
  refine ⟨rfl, hfb, ?_⟩
  rw [hfb]
  intro h
  rw [show LLMAgent.judgeRelevance false (fun _ => none) .failure "weibo"
      none (some "apple banana cherry dog elephant") none none "zebra" =
      (⟨.jbool true, .jnum (1/2), .jstr "API未配置，默认相关"⟩ : Verdict)
    from rfl] at h
  simp at h

/-- C7: with a credential configured, an assembled platform text that is
    empty or shorter than 10 characters makes `judge_relevance` return
    `is_relevant=false, score=0.0` without invoking the model; and an
    assembled text longer than 1000 characters that passes the
    short-text guard is sent to the model truncated to its first 1000
    characters with an "..." marker appended. -/
theorem judge_guard_and_truncation (platform : String)
    (title content text desc : Option String) :
    ((LLMAgent.assembleContentText platform title content text desc = ""
        ∨ pyLen (LLMAgent.assembleContentText platform title content text
            desc) < 10) →
      LLMAgent.judgePrepare true platform title content text desc =
        .earlyReturn ⟨.jbool false, .jnum 0, .jstr "内容文本过短"⟩) ∧
    ((1000 < pyLen (LLMAgent.assembleContentText platform title content
        text desc)) →
     ¬ pyLen (pyStrip (LLMAgent.assembleContentText platform title
        content text desc)) < 10 →
      LLMAgent.judgePrepare true platform title content text desc =
        .callModel
          (pyTake (LLMAgent.assembleContentText platform title content
            text desc) 1000 ++ "...")) := by
  constructor
  · intro h
    have hguard : (LLMAgent.assembleContentText platform title content
        text desc == "" ||
        decide (pyLen (pyStrip (LLMAgent.assembleContentText platform
          title content text desc)) < 10)) = true := by
      rcases h with h | h
      · simp [h]
      · have := pyLen_pyStrip_le
          (LLMAgent.assembleContentText platform title content text desc)
        simp only [Bool.or_eq_true, decide_eq_true_eq]
        exact Or.inr (lt_of_le_of_lt this h)
    simp only [LLMAgent.judgePrepare, Bool.not_true, Bool.false_eq_true,
      if_false, hguard, if_true]
  · intro hlong hstrip
    have hne : (LLMAgent.assembleContentText platform title content text
        desc == "") = false := by
      simp only [beq_eq_false_iff_ne, ne_eq]
      intro h
      rw [h] at hlong
      exact absurd hlong (by norm_num [pyLen])
    have hguard : (LLMAgent.assembleContentText platform title content
        text desc == "" ||
        decide (pyLen (pyStrip (LLMAgent.assembleContentText platform
          title content text desc)) < 10)) = false := by
      simp [hne, hstrip]
    simp only [LLMAgent.judgePrepare, Bool.not_true, Bool.false_eq_true,
      if_false, hguard, if_true, hlong, if_pos]

set_option maxRecDepth 100000 in
/-- C7 witness for `judge_guard_and_truncation`: the five-character text
    "short" triggers the guard; a 1001-character text is truncated. -/
theorem judge_guard_and_truncation_witness :
    ((LLMAgent.assembleContentText "weibo" none (some "short") none none
        = "" ∨
      pyLen (LLMAgent.assembleContentText "weibo" none (some "short")
        none none) < 10) ∧
     LLMAgent.judgePrepare true "weibo" none (some "short") none none =
       .earlyReturn ⟨.jbool false, .jnum 0, .jstr "内容文本过短"⟩) ∧
    ((1000 < pyLen (LLMAgent.assembleContentText "weibo" none
        (some (String.mk (List.replicate 1001 'a'))) none none)) ∧
     ¬ pyLen (pyStrip (LLMAgent.assembleContentText "weibo" none
        (some (String.mk (List.replicate 1001 'a'))) none none)) < 10 ∧
     LLMAgent.judgePrepare true "weibo" none
        (some (String.mk (List.replicate 1001 'a'))) none none =
       .callModel (pyTake (LLMAgent.assembleContentText "weibo" none
          (some (String.mk (List.replicate 1001 'a'))) none none) 1000
          ++ "...")) :=
  ⟨⟨Or.inr (by decide),
    (judge_guard_and_truncation "weibo" none (some "short") none none).1
      (Or.inr (by decide))⟩,
   ⟨by decide, by decide,
    (judge_guard_and_truncation "weibo" none
      (some (String.mk (List.replicate 1001 'a'))) none none).2
      (by decide) (by decide)⟩⟩

theorem fallbackScore_nonneg (ct e : String) :
    0 ≤ LLMAgent.fallbackScore ct e := by
  unfold LLMAgent.fallbackScore
  split
  · exact div_nonneg (Nat.cast_nonneg _) (Nat.cast_nonneg _)
  · exact le_refl 0

theorem fallbackScore_le_one (ct e : String) :
    LLMAgent.fallbackScore ct e ≤ 1 := by
  unfold LLMAgent.fallbackScore
  split
  case isTrue h =>
    rw [div_le_one (by exact_mod_cast h)]
    exact_mod_cast Finset.card_le_card Finset.inter_subset_left
  case isFalse h => norm_num

/-- C6: the deterministic fallback is a pure function of its two string
    arguments; its returned score is `|E ∩ C| / |E|` (0 when the event
    has no tokens), which already lies in `[0,1]` so the `min(score, 1)`
    clamp is the identity; `is_relevant` holds exactly when that score
    exceeds `0.2 = 1/5`; on identical texts whose event- and
    content-tokenizations agree and are non-empty the score is `1.0`;
    and on empty content the score is `0.0` and `is_relevant` false. -/
theorem simple_relevance_check_spec
    (contentText eventDescription t e2 : String)
    (hsame : LLMAgent.eventKeywordSet t = LLMAgent.contentWordSet t)
    (hne : (LLMAgent.eventKeywordSet t).card ≠ 0) :
    ((LLMAgent.simpleRelevanceCheck contentText eventDescription).score =
      .jnum (LLMAgent.fallbackScore contentText eventDescription)) ∧
    (0 ≤ LLMAgent.fallbackScore contentText eventDescription ∧
     LLMAgent.fallbackScore contentText eventDescription ≤ 1) ∧
    ((LLMAgent.simpleRelevanceCheck contentText
        eventDescription).is_relevant = .jbool true ↔
      1/5 < LLMAgent.fallbackScore contentText eventDescription) ∧
    (LLMAgent.simpleRelevanceCheck t t).score = .jnum 1 ∧
    ((LLMAgent.simpleRelevanceCheck "" e2).score = .jnum 0 ∧
     (LLMAgent.simpleRelevanceCheck "" e2).is_relevant = .jbool false) :=
  by
  have hclamp : ∀ ct e : String,
      min (LLMAgent.fallbackScore ct e) 1 = LLMAgent.fallbackScore ct e :=
    fun ct e => min_eq_left (fallbackScore_le_one ct e)
  have hscore : ∀ ct e : String,
      (LLMAgent.simpleRelevanceCheck ct e).score =
        .jnum (LLMAgent.fallbackScore ct e) := by
    intro ct e
    show JValue.jnum (min (LLMAgent.fallbackScore ct e) 1) = _
    rw [hclamp]
  have hone : LLMAgent.fallbackScore t t = 1 := by
    unfold LLMAgent.fallbackScore
    rw [← hsame, Finset.inter_self, if_pos (Nat.pos_of_ne_zero hne)]
    exact div_self (by exact_mod_cast hne)
  have hzero : LLMAgent.fallbackScore "" e2 = 0 := by
    unfold LLMAgent.fallbackScore
    rw [show LLMAgent.contentWordSet "" = ∅ from rfl, Finset.inter_empty]
    split <;> norm_num
  refine ⟨hscore _ _, ⟨fallbackScore_nonneg _ _, fallbackScore_le_one _ _⟩,
    ?_, ?_, ?_, ?_⟩
  · show JValue.jbool
      (decide (1/5 < LLMAgent.fallbackScore contentText eventDescription))
        = .jbool true ↔ _
    simp only [JValue.jbool.injEq, decide_eq_true_eq]
  · rw [hscore t t, hone]
  · rw [hscore "" e2, hzero]
  · show JValue.jbool (decide (1/5 < LLMAgent.fallbackScore "" e2)) =
      .jbool false
    rw [hzero, decide_eq_false (by norm_num)]

/-- C6 witness for `simple_relevance_check_spec`: the text
    "apple banana" tokenizes identically on the event and content sides
    and has two tokens. -/
theorem simple_relevance_check_spec_witness :
    (LLMAgent.eventKeywordSet "apple banana" =
      LLMAgent.contentWordSet "apple banana") ∧
    ((LLMAgent.eventKeywordSet "apple banana").card ≠ 0) ∧
    ((LLMAgent.simpleRelevanceCheck "apple banana" "apple banana").score =
      .jnum 1) ∧
    ((LLMAgent.simpleRelevanceCheck "" "zebra").score = .jnum 0 ∧
     (LLMAgent.simpleRelevanceCheck "" "zebra").is_relevant =
       .jbool false) :=
  ⟨rfl, by decide,
   (simple_relevance_check_spec "c" "e" "apple banana" "zebra" rfl
      (by decide)).2.2.2.1,
   (simple_relevance_check_spec "c" "e" "apple banana" "zebra" rfl
      (by decide)).2.2.2.2⟩

/-- C4 (amended): a remote reply that, after fence-stripping, parses as
    a JSON object lacking the keys `is_relevant`, `score` and `reason`
    yields a verdict assembled from the per-key defaults
    `false` / `0.0` / `"未提供理由"` — not the keyword-overlap fallback;
    the fallback handles replies that do not parse as JSON at all. -/
theorem judge_missing_keys_defaults
    (loads : String → Option JValue) (response platform : String)
    (title content text desc : Option String)
    (eventDescription contentText : String) (fields : JFields)
    (hprep : LLMAgent.judgePrepare true platform title content text desc
      = .callModel contentText)
    (hparse : loads (LLMAgent.stripFences response) =
      some (.jobj fields))
    (h1 : fields.lookup "is_relevant" = none)
    (h2 : fields.lookup "score" = none)
    (h3 : fields.lookup "reason" = none) :
    LLMAgent.judgeRelevance true loads (.success response) platform title
        content text desc eventDescription =
      ⟨.jbool false, .jnum 0, .jstr "未提供理由"⟩ ∧
    (∀ r2 : String, loads (LLMAgent.stripFences r2) = none →
      LLMAgent.judgeHandleResponse loads r2 contentText eventDescription
        = LLMAgent.simpleRelevanceCheck contentText eventDescription) :=
  by
  constructor
  · unfold LLMAgent.judgeRelevance
    rw [hprep]
    show LLMAgent.judgeHandleResponse loads response contentText
      eventDescription = _
    unfold LLMAgent.judgeHandleResponse
    rw [hparse]
    simp [pyDictGet, h1, h2, h3]
  · intro r2 hr2
    unfold LLMAgent.judgeHandleResponse
    rw [hr2]

/-- C4 witness for `judge_missing_keys_defaults`: the reply "{}" parses
    as the empty JSON object, which lacks all three keys. -/
theorem judge_missing_keys_defaults_witness :
    (LLMAgent.judgePrepare true "weibo" none (some "0123456789abc") none
        none = .callModel "0123456789abc") ∧
    (LLMAgent.loadsEmptyObj (LLMAgent.stripFences "\x7b\x7d") =
      some (.jobj .nil)) ∧
    (JFields.nil.lookup "is_relevant" = none) ∧
    (JFields.nil.lookup "score" = none) ∧
    (JFields.nil.lookup "reason" = none) ∧
    LLMAgent.judgeRelevance true LLMAgent.loadsEmptyObj (.success "\x7b\x7d")
        "weibo" none (some "0123456789abc") none none "some event" =
      ⟨.jbool false, .jnum 0, .jstr "未提供理由"⟩ :=
  ⟨rfl, rfl, rfl, rfl, rfl,
   (judge_missing_keys_defaults LLMAgent.loadsEmptyObj "\x7b\x7d" "weibo" none
      (some "0123456789abc") none none "some event" "0123456789abc" .nil
      rfl rfl rfl rfl rfl).1⟩

/-- C4 counterexample: for the reply "{}" (valid JSON, no expected keys),
    with content and event both "0123456789abc", `judge_relevance`
    returns the all-defaults verdict `false`/`0.0`, while the
    keyword-overlap fallback on those texts returns `true`/`1.0` — so the
    missing-keys case does not fall back as the claim states. -/
theorem judge_missing_keys_not_fallback :
    LLMAgent.judgeRelevance true LLMAgent.loadsEmptyObj (.success "\x7b\x7d")
        "weibo" none (some "0123456789abc") none none "0123456789abc" =
      ⟨.jbool false, .jnum 0, .jstr "未提供理由"⟩ ∧
    LLMAgent.simpleRelevanceCheck "0123456789abc" "0123456789abc" =
      ⟨.jbool true, .jnum 1, .jstr "关键词匹配度: 1/1"⟩ ∧
    LLMAgent.judgeRelevance true LLMAgent.loadsEmptyObj (.success "\x7b\x7d")
        "weibo" none (some "0123456789abc") none none "0123456789abc" ≠
      LLMAgent.simpleRelevanceCheck "0123456789abc" "0123456789abc" := by
  have hcard : (LLMAgent.eventKeywordSet "0123456789abc").card = 1 := by
    decide
  have hint : (LLMAgent.eventKeywordSet "0123456789abc" ∩
      LLMAgent.contentWordSet "0123456789abc").card = 1 := by decide
  have hfb : LLMAgent.simpleRelevanceCheck "0123456789abc"
      "0123456789abc" =
      ⟨.jbool true, .jnum 1, .jstr "关键词匹配度: 1/1"⟩ := by
    simp only [LLMAgent.simpleRelevanceCheck, hcard, hint]
    norm_num
    rfl
  refine ⟨rfl, hfb, ?_⟩
  rw [hfb]
  intro h
  rw [show LLMAgent.judgeRelevance true LLMAgent.loadsEmptyObj
      (.success "\x7b\x7d") "weibo" none (some "0123456789abc") none none
      "0123456789abc" =
      (⟨.jbool false, .jnum 0, .jstr "未提供理由"⟩ : Verdict) from rfl]
    at h
  simp at h

/-! ## Theorems about the post-processing pipeline -/

theorem loadDedupAux_lookup {α : Type} (getId : α → Option String)
    (k : String) (items : List α) :
    ∀ (seen : List String) (uniq : List α) (cache : List (String × α)),
      (∀ s, strSeenContains seen s = (assocLookup cache s).isSome) →
      ((assocLookup cache k = none →
        assocLookup (DataPostProcessor.loadDedupAux getId items seen uniq
          cache).2 k =
          items.find? (DataPostProcessor.idMatches getId k)) ∧
       (∀ v, assocLookup cache k = some v →
        assocLookup (DataPostProcessor.loadDedupAux getId items seen uniq
          cache).2 k = some v)) := by
  induction items with
  | nil =>
    intro seen uniq cache hinv
    exact ⟨fun h => by
        simpa [DataPostProcessor.loadDedupAux, List.find?] using h,
      fun v h => by simpa [DataPostProcessor.loadDedupAux] using h⟩
  | cons item rest ih =>
    intro seen uniq cache hinv
    cases hgi : getId item with
    | none =>
      have hred : DataPostProcessor.loadDedupAux getId (item :: rest) seen
          uniq cache = DataPostProcessor.loadDedupAux getId rest seen uniq
          cache := by
        simp [DataPostProcessor.loadDedupAux, hgi]
      have hmatch : DataPostProcessor.idMatches getId k item = false := by
        simp [DataPostProcessor.idMatches, hgi]
      have hfind : (item :: rest).find?
          (DataPostProcessor.idMatches getId k) =
          rest.find? (DataPostProcessor.idMatches getId k) := by
        simp [List.find?_cons, hmatch]
      rw [hred, hfind]
      exact ih seen uniq cache hinv
    | some itemId =>
      by_cases hg : (!(itemId == "") && !(strSeenContains seen itemId))
        = true
      · -- fresh truthy id: inserted into seen and cache
        have hred : DataPostProcessor.loadDedupAux getId (item :: rest)
            seen uniq cache =
            DataPostProcessor.loadDedupAux getId rest (itemId :: seen)
              (uniq ++ [item]) (assocSet cache itemId item) := by
          simp only [DataPostProcessor.loadDedupAux, hgi, hg, if_true]
        have hg2 : (itemId == "") = false ∧
            strSeenContains seen itemId = false := by
          constructor
          · cases hb : (itemId == "") with
            | false => rfl
            | true => rw [hb] at hg; simp at hg
          · cases hb : strSeenContains seen itemId with
            | false => rfl
            | true => rw [hb] at hg; simp at hg
        have hne : (itemId == "") = false := hg2.1
        have hunseen : strSeenContains seen itemId = false := hg2.2
        have hcache_none : assocLookup cache itemId = none := by
          have := hinv itemId
          rw [hunseen] at this
          cases hc : assocLookup cache itemId with
          | none => rfl
          | some v => rw [hc] at this; simp at this
        have hinv2 : ∀ s, strSeenContains (itemId :: seen) s =
            (assocLookup (assocSet cache itemId item) s).isSome := by
          intro s
          by_cases hs : s = itemId
          · subst hs
            have : strSeenContains (s :: seen) s = true := by
              simp [strSeenContains]
            rw [this, assocLookup_set_self]
            rfl
          · rw [assocLookup_set_ne cache itemId s item hs]
            have : strSeenContains (itemId :: seen) s =
                strSeenContains seen s := by
              simp only [strSeenContains, List.any_cons]
              rw [show (itemId == s) = false from
                beq_eq_false_iff_ne.mpr (fun he => hs he.symm)]
              simp
            rw [this, hinv s]
        rw [hred]
        have ihres := ih (itemId :: seen) (uniq ++ [item])
          (assocSet cache itemId item) hinv2
        constructor
        · intro hnone
          by_cases hk : k = itemId
          · subst hk
            have hself : assocLookup (assocSet cache k item) k =
                some item := assocLookup_set_self cache k item
            have := ihres.2 item hself
            rw [this]
            have hmatch : DataPostProcessor.idMatches getId k item =
                true := by
              simp [DataPostProcessor.idMatches, hgi, hne]
            simp [List.find?_cons, hmatch]
          · have hlk : assocLookup (assocSet cache itemId item) k =
                assocLookup cache k := assocLookup_set_ne _ _ _ _ hk
            rw [hlk] at ihres
            have := ihres.1 hnone
            rw [this]
            have hmatch : DataPostProcessor.idMatches getId k item =
                false := by
              simp only [DataPostProcessor.idMatches, hgi]
              rw [show (itemId == k) = false from
                beq_eq_false_iff_ne.mpr (fun he => hk he.symm)]
              simp
            simp [List.find?_cons, hmatch]
        · intro v hv
          have hk : ¬ k = itemId := by
            intro hkeq
            rw [hkeq] at hv
            rw [hcache_none] at hv
            cases hv
          have hlk : assocLookup (assocSet cache itemId item) k =
              assocLookup cache k := assocLookup_set_ne _ _ _ _ hk
          rw [hlk] at ihres
          exact ihres.2 v hv
      · -- falsy or already-seen id: skipped
        have hred : DataPostProcessor.loadDedupAux getId (item :: rest)
            seen uniq cache =
            DataPostProcessor.loadDedupAux getId rest seen uniq cache :=
          by
          simp only [DataPostProcessor.loadDedupAux, hgi, hg,
            Bool.false_eq_true, if_false]
        rw [hred]
        have ihres := ih seen uniq cache hinv
        constructor
        · intro hnone
          have hmatch : DataPostProcessor.idMatches getId k item =
              false := by
            simp only [DataPostProcessor.idMatches, hgi]
            cases hempty : (itemId == "") with
            | true => simp [hempty]
            | false =>
              have hseen : strSeenContains seen itemId = true := by
                cases hb : strSeenContains seen itemId with
                | true => rfl
                | false => exact absurd (by simp [hempty, hb]) hg
              have hk : (itemId == k) = false := by
                apply beq_eq_false_iff_ne.mpr
                intro he
                rw [he] at hseen
                rw [hinv k, hnone] at hseen
                simp at hseen
              simp [hempty, hk]
          rw [ihres.1 hnone]
          simp [List.find?_cons, hmatch]
        · exact ihres.2

theorem strSeen_false_lookup_none {α : Type} (seen : List String)
    (cache : List (String × α)) (itemId : String)
    (hinv : ∀ s, strSeenContains seen s = (assocLookup cache s).isSome)
    (hunseen : strSeenContains seen itemId = false) :
    assocLookup cache itemId = none := by
  have h := hinv itemId
  rw [hunseen] at h
  cases hc : assocLookup cache itemId with
  | none => rfl
  | some v => rw [hc] at h; simp at h

theorem seen_cache_invariant_insert {α : Type} (seen : List String)
    (cache : List (String × α)) (itemId : String) (item : α)
    (hinv : ∀ s, strSeenContains seen s = (assocLookup cache s).isSome) :
    ∀ s, strSeenContains (itemId :: seen) s =
      (assocLookup (assocSet cache itemId item) s).isSome := by
  intro s
  by_cases hs : s = itemId
  · subst hs
    have h1 : strSeenContains (s :: seen) s = true := by
      simp [strSeenContains]
    rw [h1, assocLookup_set_self]
    rfl
  · rw [assocLookup_set_ne cache itemId s item hs]
    have h1 : strSeenContains (itemId :: seen) s =
        strSeenContains seen s := by
      simp only [strSeenContains, List.any_cons]
      rw [show (itemId == s) = false from
        beq_eq_false_iff_ne.mpr (fun he => hs he.symm)]
      simp
    rw [h1, hinv s]

theorem loadDedupAux_nodup {α : Type} (getId : α → Option String)
    (items : List α) :
    ∀ (seen : List String) (uniq : List α) (cache : List (String × α)),
      (∀ s, strSeenContains seen s = (assocLookup cache s).isSome) →
      (cache.map Prod.fst).Nodup →
      ((DataPostProcessor.loadDedupAux getId items seen uniq
        cache).2.map Prod.fst).Nodup := by
  induction items with
  | nil =>
    intro seen uniq cache hinv hnd
    simpa [DataPostProcessor.loadDedupAux] using hnd
  | cons item rest ih =>
    intro seen uniq cache hinv hnd
    cases hgi : getId item with
    | none =>
      have hred : DataPostProcessor.loadDedupAux getId (item :: rest) seen
          uniq cache = DataPostProcessor.loadDedupAux getId rest seen uniq
          cache := by
        simp [DataPostProcessor.loadDedupAux, hgi]
      rw [hred]
      exact ih seen uniq cache hinv hnd
    | some itemId =>
      by_cases hg : (!(itemId == "") && !(strSeenContains seen itemId))
        = true
      · have hred : DataPostProcessor.loadDedupAux getId (item :: rest)
            seen uniq cache =
            DataPostProcessor.loadDedupAux getId rest (itemId :: seen)
              (uniq ++ [item]) (assocSet cache itemId item) := by
          simp only [DataPostProcessor.loadDedupAux, hgi, hg, if_true]
        have hunseen : strSeenContains seen itemId = false := by
          cases hb : strSeenContains seen itemId with
          | false => rfl
          | true => rw [hb] at hg; simp at hg
        have hnonekey : assocLookup cache itemId = none :=
          strSeen_false_lookup_none seen cache itemId hinv hunseen
        rw [hred]
        refine ih (itemId :: seen) (uniq ++ [item])
          (assocSet cache itemId item)
          (seen_cache_invariant_insert seen cache itemId item hinv) ?_
        rw [assocSet_keys_of_fresh cache itemId item hnonekey]
        rw [List.nodup_append]
        refine ⟨hnd, List.nodup_singleton itemId, ?_⟩
        intro a ha hamem
        rw [List.mem_singleton] at hamem
        subst hamem
        exact (assocLookup_eq_none_iff cache a).mp hnonekey ha
      · have hred : DataPostProcessor.loadDedupAux getId (item :: rest)
            seen uniq cache =
            DataPostProcessor.loadDedupAux getId rest seen uniq cache :=
          by
          simp only [DataPostProcessor.loadDedupAux, hgi, hg,
            Bool.false_eq_true, if_false]
        rw [hred]
        exact ih seen uniq cache hinv hnd

/-- C9: after a platform's Load stage, the in-memory id-to-record index
    has at most one entry per id (pairwise-distinct keys), and looking
    any id up in the index yields exactly the first raw item in load
    order whose (truthy) id field equals that id — later duplicates,
    even with different payloads, are discarded.  `getId` is the
    platform's id-field selector: `note_id` for `_load_weibo_data`
    (`loadWeiboData`), `video_id` for `_load_bilibili_data`
    (`loadBilibiliData`). -/
theorem load_dedup_first_wins {α : Type} (getId : α → Option String)
    (items : List α) (k : String) :
    ((DataPostProcessor.loadPlatformData getId items).2.map
      Prod.fst).Nodup ∧
    assocLookup (DataPostProcessor.loadPlatformData getId items).2 k =
      items.find? (DataPostProcessor.idMatches getId k) := by
  have hinv : ∀ s, strSeenContains ([] : List String) s =
      (assocLookup ([] : List (String × α)) s).isSome := fun s => rfl
  exact ⟨loadDedupAux_nodup getId items [] [] [] hinv (by simp),
    (loadDedupAux_lookup getId k items [] [] [] hinv).1 rfl⟩

theorem collectLoop_spec {α : Type} (p : String)
    (cache : List (String × α)) (rel : List String) :
    ∀ (seen : List (String × String))
      (acc : List (DataPostProcessor.StampedRecord α))
      (seenIds : List String),
      (∀ i, pairSeenContains seen p i = strSeenContains seenIds i) →
      ((DataPostProcessor.collectLoop p cache rel seen acc).2 =
        acc ++ (DataPostProcessor.dedupKeepFirstAux rel
          seenIds).filterMap
          (fun i => (assocLookup cache i).map
            (fun r => ⟨r, p, i⟩)) ∧
       (∀ q j, q ≠ p →
         pairSeenContains
           (DataPostProcessor.collectLoop p cache rel seen acc).1 q j =
           pairSeenContains seen q j)) := by
  induction rel with
  | nil =>
    intro seen acc seenIds hinv
    constructor
    · simp [DataPostProcessor.collectLoop,
        DataPostProcessor.dedupKeepFirstAux]
    · intro q j hq
      rfl
  | cons relId rest ih =>
    intro seen acc seenIds hinv
    by_cases hseen : pairSeenContains seen p relId = true
    · have hred : DataPostProcessor.collectLoop p cache (relId :: rest)
          seen acc = DataPostProcessor.collectLoop p cache rest seen acc
        := by
        simp only [DataPostProcessor.collectLoop, hseen, if_true]
      have hdedup : DataPostProcessor.dedupKeepFirstAux (relId :: rest)
          seenIds = DataPostProcessor.dedupKeepFirstAux rest seenIds := by
        have : strSeenContains seenIds relId = true := by
          rw [← hinv relId]; exact hseen
        simp only [DataPostProcessor.dedupKeepFirstAux, this, if_true]
      rw [hred, hdedup]
      exact ih seen acc seenIds hinv
    · have hseenf : pairSeenContains seen p relId = false :=
        Bool.eq_false_iff.mpr hseen
      have hsids : strSeenContains seenIds relId = false := by
        rw [← hinv relId]; exact hseenf
      have hdedup : DataPostProcessor.dedupKeepFirstAux (relId :: rest)
          seenIds =
          relId :: DataPostProcessor.dedupKeepFirstAux rest
            (relId :: seenIds) := by
        simp only [DataPostProcessor.dedupKeepFirstAux, hsids,
          Bool.false_eq_true, if_false]
      have hinv2 : ∀ i, pairSeenContains ((p, relId) :: seen) p i =
          strSeenContains (relId :: seenIds) i := by
        intro i
        show ((p == p && relId == i) || pairSeenContains seen p i) =
          ((relId == i) || strSeenContains seenIds i)
        rw [hinv i, beq_self_eq_true, Bool.true_and]
      have hpreserve : ∀ q j, q ≠ p →
          pairSeenContains ((p, relId) :: seen) q j =
          pairSeenContains seen q j := by
        intro q j hq
        show ((p == q && relId == j) || pairSeenContains seen q j) = _
        rw [show (p == q) = false from
          beq_eq_false_iff_ne.mpr (fun he => hq he.symm)]
        simp
      cases hc : assocLookup cache relId with
      | some r =>
        have hred : DataPostProcessor.collectLoop p cache (relId :: rest)
            seen acc = DataPostProcessor.collectLoop p cache rest
              ((p, relId) :: seen) (acc ++ [⟨r, p, relId⟩]) := by
          simp only [DataPostProcessor.collectLoop, hseenf,
            Bool.false_eq_true, if_false, hc]
        rw [hred, hdedup]
        have ihres := ih ((p, relId) :: seen) (acc ++ [⟨r, p, relId⟩])
          (relId :: seenIds) hinv2
        constructor
        · rw [ihres.1]
          rw [List.filterMap_cons]
          simp only [hc, Option.map_some]
          rw [List.append_assoc]
          rfl
        · intro q j hq
          rw [ihres.2 q j hq, hpreserve q j hq]
      | none =>
        have hred : DataPostProcessor.collectLoop p cache (relId :: rest)
            seen acc = DataPostProcessor.collectLoop p cache rest
              ((p, relId) :: seen) acc := by
          simp only [DataPostProcessor.collectLoop, hseenf,
            Bool.false_eq_true, if_false, hc]
        rw [hred, hdedup]
        have ihres := ih ((p, relId) :: seen) acc (relId :: seenIds) hinv2
        constructor
        · rw [ihres.1]
          rw [List.filterMap_cons, hc]
          rfl
        · intro q j hq
          rw [ihres.2 q j hq, hpreserve q j hq]

theorem dedupKeepFirstAux_spec (l : List String) :
    ∀ seen : List String,
      (DataPostProcessor.dedupKeepFirstAux l seen).Nodup ∧
      ∀ x ∈ DataPostProcessor.dedupKeepFirstAux l seen,
        strSeenContains seen x = false := by
  induction l with
  | nil =>
    intro seen
    exact ⟨List.nodup_nil, by simp [DataPostProcessor.dedupKeepFirstAux]⟩
  | cons x rest ih =>
    intro seen
    by_cases hx : strSeenContains seen x = true
    · rw [show DataPostProcessor.dedupKeepFirstAux (x :: rest) seen =
          DataPostProcessor.dedupKeepFirstAux rest seen by
        simp only [DataPostProcessor.dedupKeepFirstAux, hx, if_true]]
      exact ih seen
    · have hxf : strSeenContains seen x = false :=
        Bool.eq_false_iff.mpr hx
      rw [show DataPostProcessor.dedupKeepFirstAux (x :: rest) seen =
          x :: DataPostProcessor.dedupKeepFirstAux rest (x :: seen) by
        simp only [DataPostProcessor.dedupKeepFirstAux, hxf,
          Bool.false_eq_true, if_false]]
      have ihres := ih (x :: seen)
      constructor
      · rw [List.nodup_cons]
        refine ⟨?_, ihres.1⟩
        intro hmem
        have hfalse := ihres.2 x hmem
        have htrue : strSeenContains (x :: seen) x = true := by
          simp [strSeenContains]
        rw [hfalse] at htrue
        cases htrue
      · intro y hy
        rcases List.mem_cons.mp hy with rfl | hy2
        · exact hxf
        · have hc := ihres.2 y hy2
          cases hb : strSeenContains seen y with
          | false => rfl
          | true =>
            rw [show strSeenContains (x :: seen) y =
                (x == y || strSeenContains seen y) from rfl, hb] at hc
            simp at hc

theorem specStampSelect_pairs {α : Type} (p : String) (rel : List String)
    (cache : List (String × α)) :
    ((DataPostProcessor.specStampSelect p rel cache).map
      (fun s => (s.platform, s.relevance_id))).Nodup ∧
    ∀ pr ∈ (DataPostProcessor.specStampSelect p rel cache).map
      (fun s => (s.platform, s.relevance_id)), pr.1 = p := by
  unfold DataPostProcessor.specStampSelect
  rw [List.map_filterMap]
  have heq : (fun i => ((assocLookup cache i).map
      (fun r => (⟨r, p, i⟩ : DataPostProcessor.StampedRecord α))).map
      (fun s => (s.platform, s.relevance_id))) =
      (fun i => (assocLookup cache i).map (fun _ => (p, i))) := by
    funext i
    cases assocLookup cache i <;> rfl
  rw [heq]
  constructor
  · refine List.Nodup.filterMap ?_
      (dedupKeepFirstAux_spec rel []).1
    intro a a' b hb hb'
    have ha : b = (p, a) := by
      cases hc : assocLookup cache a with
      | none => rw [hc] at hb; simp at hb
      | some r =>
        rw [hc] at hb
        have hb2 : some (p, a) = some b := hb
        exact (Option.some.inj hb2).symm
    have ha' : b = (p, a') := by
      cases hc : assocLookup cache a' with
      | none => rw [hc] at hb'; simp at hb'
      | some r =>
        rw [hc] at hb'
        have hb2 : some (p, a') = some b := hb'
        exact (Option.some.inj hb2).symm
    rw [ha] at ha'
    exact (Prod.ext_iff.mp ha').2
  · intro pr hpr
    rcases List.mem_filterMap.mp hpr with ⟨i, _, hf⟩
    cases hc : assocLookup cache i with
    | none => rw [hc] at hf; cases hf
    | some r =>
      rw [hc] at hf
      cases hf
      rfl

/-- C8 (amended): `save_relevant_data` builds the combined output by
    walking, for each platform in order (weibo, bilibili, zhihu) and
    each id of that platform's relevant-id list in classify order, the
    ids not yet seen (dedup by `(platform, id)`), appending the cached
    record stamped with `platform` and `relevance_id` when the id is in
    that platform's in-memory cache — equivalently, the concatenation of
    the three per-platform spec-side selections; the stamped `(platform,
    relevance_id)` keys of the combined sequence are pairwise distinct;
    the timestamped snapshot file and the latest file always receive
    identical content; and that content is the full combined sequence
    exactly when it is non-empty — when the combined sequence is empty,
    both writes are skipped (`if all_relevant_data:`), so no file is
    touched on that run. -/
theorem save_relevant_data_spec {α : Type}
    (relWeibo relBili relZhihu : List String)
    (cacheWeibo cacheBili cacheZhihu : List (String × α)) :
    (DataPostProcessor.saveRelevantData relWeibo relBili relZhihu
        cacheWeibo cacheBili cacheZhihu).combined =
      DataPostProcessor.specStampSelect "weibo" relWeibo cacheWeibo ++
      DataPostProcessor.specStampSelect "bilibili" relBili cacheBili ++
      DataPostProcessor.specStampSelect "zhihu" relZhihu cacheZhihu ∧
    ((DataPostProcessor.saveRelevantData relWeibo relBili relZhihu
        cacheWeibo cacheBili cacheZhihu).combined.map
      (fun s => (s.platform, s.relevance_id))).Nodup ∧
    (DataPostProcessor.saveRelevantData relWeibo relBili relZhihu
        cacheWeibo cacheBili cacheZhihu).snapshotFile =
      (DataPostProcessor.saveRelevantData relWeibo relBili relZhihu
        cacheWeibo cacheBili cacheZhihu).latestFile ∧
    (DataPostProcessor.saveRelevantData relWeibo relBili relZhihu
        cacheWeibo cacheBili cacheZhihu).snapshotFile =
      (if (DataPostProcessor.saveRelevantData relWeibo relBili relZhihu
          cacheWeibo cacheBili cacheZhihu).combined.isEmpty then none
       else some (DataPostProcessor.saveRelevantData relWeibo relBili
          relZhihu cacheWeibo cacheBili cacheZhihu).combined) := by
  set w := DataPostProcessor.collectLoop "weibo" cacheWeibo relWeibo []
    [] with hw
  set b := DataPostProcessor.collectLoop "bilibili" cacheBili relBili
    w.1 w.2 with hb
  set z := DataPostProcessor.collectLoop "zhihu" cacheZhihu relZhihu
    b.1 b.2 with hz
  have h0 : ∀ i, pairSeenContains [] "weibo" i =
      strSeenContains ([] : List String) i := fun i => rfl
  have s1 := collectLoop_spec "weibo" cacheWeibo relWeibo [] [] [] h0
  rw [← hw] at s1
  have h1 : ∀ i, pairSeenContains w.1 "bilibili" i =
      strSeenContains ([] : List String) i := by
    intro i
    rw [s1.2 "bilibili" i (by decide)]
    rfl
  have s2 := collectLoop_spec "bilibili" cacheBili relBili w.1 w.2 [] h1
  rw [← hb] at s2
  have h2 : ∀ i, pairSeenContains b.1 "zhihu" i =
      strSeenContains ([] : List String) i := by
    intro i
    rw [s2.2 "zhihu" i (by decide), s1.2 "zhihu" i (by decide)]
    rfl
  have s3 := collectLoop_spec "zhihu" cacheZhihu relZhihu b.1 b.2 [] h2
  rw [← hz] at s3
  have hcomb : z.2 =
      DataPostProcessor.specStampSelect "weibo" relWeibo cacheWeibo ++
      DataPostProcessor.specStampSelect "bilibili" relBili cacheBili ++
      DataPostProcessor.specStampSelect "zhihu" relZhihu cacheZhihu := by
    rw [s3.1, s2.1, s1.1]
    simp only [List.nil_append]
    rfl
  have hsave : DataPostProcessor.saveRelevantData relWeibo relBili
      relZhihu cacheWeibo cacheBili cacheZhihu =
      (if z.2.isEmpty then ⟨z.2, none, none⟩
       else ⟨z.2, some z.2, some z.2⟩ :
        DataPostProcessor.SaveResult α) := by
    rw [hz, hb, hw]
    rfl
  have hn1 := specStampSelect_pairs "weibo" relWeibo cacheWeibo
  have hn2 := specStampSelect_pairs "bilibili" relBili cacheBili
  have hn3 := specStampSelect_pairs "zhihu" relZhihu cacheZhihu
  have hnodup : (((DataPostProcessor.specStampSelect "weibo" relWeibo
      cacheWeibo ++
      DataPostProcessor.specStampSelect "bilibili" relBili cacheBili ++
      DataPostProcessor.specStampSelect "zhihu" relZhihu
        cacheZhihu).map
      (fun s => (s.platform, s.relevance_id))).Nodup) := by
    rw [List.map_append, List.map_append, List.nodup_append,
      List.nodup_append]
    refine ⟨⟨hn1.1, hn2.1, ?_⟩, hn3.1, ?_⟩
    · intro a ha1 ha2
      have e1 := hn1.2 a ha1
      have e2 := hn2.2 a ha2
      rw [e1] at e2
      exact absurd e2 (by decide)
    · intro a ha1 ha2
      have e3 := hn3.2 a ha2
      rcases List.mem_append.mp ha1 with h | h
      · have e1 := hn1.2 a h
        rw [e1] at e3
        exact absurd e3 (by decide)
      · have e2 := hn2.2 a h
        rw [e2] at e3
        exact absurd e3 (by decide)
  rw [hsave]
  by_cases hemp : z.2.isEmpty
  · rw [if_pos hemp]
    refine ⟨hcomb, ?_, rfl, ?_⟩
    · show ((z.2).map (fun s => (s.platform, s.relevance_id))).Nodup
      rw [hcomb]
      exact hnodup
    · show (none : Option (List (DataPostProcessor.StampedRecord α))) =
        if z.2.isEmpty then none else some z.2
      rw [if_pos hemp]
  · rw [if_neg hemp]
    refine ⟨hcomb, ?_, rfl, ?_⟩
    · show ((z.2).map (fun s => (s.platform, s.relevance_id))).Nodup
      rw [hcomb]
      exact hnodup
    · show some z.2 =
        if z.2.isEmpty then none else some z.2
      rw [if_neg hemp]

/-- C8 counterexample: a Persist run in which the id "1" is relevant but
    no record is cached produces an empty combined sequence, and
    `save_relevant_data` then skips both file writes
    (`if all_relevant_data:` at data_postprocessor.py:616) — neither the
    timestamped snapshot file nor the latest file receives the combined
    sequence on that run, refuting the claim's "that same combined
    sequence is then written in full both to a timestamped snapshot file
    and to the latest file" for every run. -/
theorem save_relevant_data_skips_empty_run :
    DataPostProcessor.saveRelevantData ["1"] [] []
        ([] : List (String × String)) [] [] =
      { combined := [], snapshotFile := none, latestFile := none } ∧
    (DataPostProcessor.saveRelevantData ["1"] [] []
        ([] : List (String × String)) [] []).snapshotFile ≠
      some (DataPostProcessor.saveRelevantData ["1"] [] []
        ([] : List (String × String)) [] []).combined ∧
    (DataPostProcessor.saveRelevantData ["1"] [] []
        ([] : List (String × String)) [] []).latestFile ≠
      some (DataPostProcessor.saveRelevantData ["1"] [] []
        ([] : List (String × String)) [] []).combined := by
  refine ⟨rfl, ?_, ?_⟩ <;> exact fun h => Option.noConfusion h

end MediaCrawler

